import Mathlib

/-! Shallow embedding of the condition-and-restart library found in
src/src/exceptions.c and src/include/exceptions.h.  Caller-owned
registration structs (condition_handler, condition_finalizer,
condition_restart) are identified by natural numbers standing for their
addresses; an `env` gives the denotation of their fields.  Effects the C
code performs through callbacks, malloc, free and fprintf(stderr, ...)
are recorded in a trace of `event`s. -/

namespace RCException

/-- Verdict returned by a handler callback (enum handler_result in
exceptions.h).  The C enum is an int, so `invalid v` models any value
outside the three declared enumerators; the dispatcher's default branch
rejects such a value. -/
inductive handler_result where
  | abort
  | handled
  | pass
  | invalid (v : Nat)
deriving DecidableEq

/-- Result of invoking a restart (enum restart_result in exceptions.h). -/
inductive restart_result where
  | succeed
  | fail
  | not_found
deriving DecidableEq

/-- struct condition (exceptions.h): name, message, linenum, filename.
create_condition copies the strings into fresh storage, so in the model a
condition is simply the record of the four values. -/
structure condition where
  name : String
  message : String
  linenum : Int
  filename : String
deriving DecidableEq

/-- Observable effects of the library: callback invocations, stack-node
allocation and free, writes to stderr, and writes to a
condition_handler's `condition` field.  The last constructor exists so
that absence of such a write is expressible; exceptions.c never assigns
to that field, so no operation below ever emits it. -/
inductive event where
  | invoke_handler (h : Nat)
  | run_finalizer (f : Nat)
  | invoke_restart_ev (r : Nat)
  | alloc_node
  | free_node
  | set_cond_field (h : Nat)
  | diagnostic (s : String)
deriving DecidableEq

/-- Denotation of the caller-owned registration structs.  `hname h` is
handler h's condition_name, `hres h` the verdict its callback returns
when invoked, `rname r` a restart's restart_name and `rres r` the result
its callback returns.  Handler and finalizer callbacks are modelled as
returning their verdict (and being logged in the trace); user_data is
opaque to the library and needs no representation. -/
structure env where
  hname : Nat → String
  hres : Nat → handler_result
  rname : Nat → String
  rres : Nat → restart_result

/-- struct handler_entry (exceptions.c): one node of the unified
handler/finalizer stack, tagged HANDLER or FINALIZER, holding a pointer
to the caller-owned struct. -/
inductive handler_entry where
  | handler (h : Nat)
  | finalizer (f : Nat)
deriving DecidableEq

/-- create_condition: allocate the condition and copy the strings. -/
def create_condition (name message : String) (filename : String) (linenum : Int) :
    condition :=
  { name := name, message := message, linenum := linenum, filename := filename }

/-- fprint_condition: the text written for a condition, the format
string being "%s:%d: %s:%s" applied to filename, linenum, name,
message. -/
def fprint_condition (c : condition) : String :=
  c.filename ++ ":" ++ toString c.linenum ++ ": " ++ c.name ++ ":" ++ c.message

/-- register_restart: malloc a restart_entry and LL_PREPEND it. -/
def register_restart (r : Nat) (restarts : List Nat) : List event × List Nat :=
  ([event.alloc_node], r :: restarts)

/-- The scan-and-splice inside unregister_restart: find the first entry
whose restart pointer equals r and remove it; none when absent. -/
def remove_first_restart (r : Nat) : List Nat → Option (List Nat)
  | [] => none
  | x :: rest =>
    if x = r then some rest
    else (remove_first_restart r rest).map (fun l => x :: l)

/-- unregister_restart: scan for the entry, LL_DELETE it when found,
otherwise print "cannot find restart %s\n".  The C code does NOT free
the spliced entry (no free(entry) on the found path). -/
def unregister_restart (e : env) (r : Nat) (restarts : List Nat) :
    List event × List Nat :=
  match remove_first_restart r restarts with
  | some rest => ([], rest)
  | none => ([event.diagnostic ("cannot find restart " ++ e.rname r ++ "\n")], restarts)

/-- find_restart_entry: linear scan for the first entry whose
restart_name strcmp-equals restart_name; NULL when the list is
exhausted. -/
def find_restart_entry (e : env) (restart_name : String) : List Nat → Option Nat
  | [] => none
  | r :: rest =>
    if e.rname r = restart_name then some r
    else find_restart_entry e restart_name rest

/-- invoke_restart: find the entry; when found call its func with the
condition and its data and return that result, else RESTART_NOT_FOUND. -/
def invoke_restart (e : env) (cond : condition) (restart_name : String)
    (restarts : List Nat) : List event × restart_result :=
  match find_restart_entry e restart_name restarts with
  | some r => ([event.invoke_restart_ev r], e.rres r)
  | none => ([], restart_result.not_found)

/-- _register_handler: malloc a handler_entry tagged HANDLER and
LL_PREPEND it. -/
def _register_handler (h : Nat) (handlers : List handler_entry) :
    List event × List handler_entry :=
  ([event.alloc_node], handler_entry.handler h :: handlers)

/-- The scan-and-splice inside unregister_handler: first node tagged
HANDLER whose handler pointer equals h. -/
def remove_first_handler (h : Nat) : List handler_entry → Option (List handler_entry)
  | [] => none
  | handler_entry.handler g :: rest =>
    if g = h then some rest
    else (remove_first_handler h rest).map (fun l => handler_entry.handler g :: l)
  | handler_entry.finalizer f :: rest =>
    (remove_first_handler h rest).map (fun l => handler_entry.finalizer f :: l)

/-- unregister_handler: scan, LL_DELETE and free(entry) when found,
otherwise print the diagnostic. -/
def unregister_handler (h : Nat) (handlers : List handler_entry) :
    List event × List handler_entry :=
  match remove_first_handler h handlers with
  | some rest => ([event.free_node], rest)
  | none => ([event.diagnostic "Trying to unregister non-existent handler"], handlers)

/-- register_finalizer: malloc a handler_entry tagged FINALIZER and
LL_PREPEND it. -/
def register_finalizer (f : Nat) (handlers : List handler_entry) :
    List event × List handler_entry :=
  ([event.alloc_node], handler_entry.finalizer f :: handlers)

/-- The scan-and-splice inside unregister_finalizer: first node tagged
FINALIZER whose finalizer pointer equals f. -/
def remove_first_finalizer (f : Nat) : List handler_entry → Option (List handler_entry)
  | [] => none
  | handler_entry.finalizer g :: rest =>
    if g = f then some rest
    else (remove_first_finalizer f rest).map (fun l => handler_entry.finalizer g :: l)
  | handler_entry.handler h :: rest =>
    (remove_first_finalizer f rest).map (fun l => handler_entry.handler h :: l)

/-- unregister_finalizer: the C code FIRST runs finalizer->func
unconditionally, THEN scans for the node; LL_DELETE and free when found,
otherwise print the diagnostic.  Either way the callback has already
run. -/
def unregister_finalizer (f : Nat) (handlers : List handler_entry) :
    List event × List handler_entry :=
  match remove_first_finalizer f handlers with
  | some rest => ([event.run_finalizer f, event.free_node], rest)
  | none =>
    ([event.run_finalizer f,
      event.diagnostic "Trying to unregister non-existent finalizer"], handlers)

/-- find_handler_entry: linear scan from the given node for the first
node tagged HANDLER whose condition_name strcmp-equals condition_name.
The C function returns a node pointer, rendered here as the handler id
together with the node's next suffix; after the loop entry is NULL, so
the trailing tag re-check in the C source is dead and the result is
none. -/
def find_handler_entry (e : env) (condition_name : String) :
    List handler_entry → Option (Nat × List handler_entry)
  | [] => none
  | handler_entry.handler h :: rest =>
    if e.hname h = condition_name then some (h, rest)
    else find_handler_entry e condition_name rest
  | handler_entry.finalizer _ :: rest => find_handler_entry e condition_name rest

/-- run_finalizers_and_unwind: LL_FOREACH_SAFE from the head of the
stack, breaking at the chosen node; for each earlier node, run its
callback when it is tagged FINALIZER, then LL_DELETE and free it.  The
chosen node is identified by its position, so the argument here is the
count of nodes standing in front of it. -/
def run_finalizers_and_unwind : Nat → List handler_entry → List event × List handler_entry
  | 0, stack => ([], stack)
  | _ + 1, [] => ([], [])
  | k + 1, c :: rest =>
    let evs :=
      match c with
      | handler_entry.finalizer f => [event.run_finalizer f, event.free_node]
      | handler_entry.handler _ => [event.free_node]
    let p := run_finalizers_and_unwind k rest
    (evs ++ p.1, p.2)

/-- Outcome of the while loop in _throw_exception: which case ended the
search.  `aborted h rest` records the chosen node's handler and the
suffix after that node (canidate->next). -/
inductive loop_decision where
  | aborted (h : Nat) (rest : List handler_entry)
  | handled
  | invalid (v : Nat)
  | no_handler
deriving DecidableEq

/-- The search loop of _throw_exception: repeatedly find_handler_entry
from the current candidate, invoke the found handler's func and branch
on the verdict; HANDLER_PASS advances the candidate past the node and
continues.  Written with the find fused into the recursion; the lemma
throw_loop_eq_find below recovers the find-then-switch shape of the C
loop. -/
def throw_loop (e : env) (condition_name : String) :
    List handler_entry → List event × loop_decision
  | [] => ([], loop_decision.no_handler)
  | handler_entry.finalizer _ :: rest => throw_loop e condition_name rest
  | handler_entry.handler h :: rest =>
    if e.hname h = condition_name then
      match e.hres h with
      | handler_result.abort => ([event.invoke_handler h], loop_decision.aborted h rest)
      | handler_result.handled => ([event.invoke_handler h], loop_decision.handled)
      | handler_result.pass =>
        (event.invoke_handler h :: (throw_loop e condition_name rest).1,
          (throw_loop e condition_name rest).2)
      | handler_result.invalid v => ([event.invoke_handler h], loop_decision.invalid v)
    else throw_loop e condition_name rest

/-- How _throw_exception relinquishes control: return to the signaler
(HANDLER_HANDLED), longjmp to handler h's buf (HANDLER_ABORT, the call
does not return), or exit(code) on the fatal paths. -/
inductive throw_outcome where
  | returned
  | jumped (h : Nat)
  | exited (code : Nat)
deriving DecidableEq

/-- Result of one call to _throw_exception: the trace of effects, how
control left the function, and the handler stack it leaves behind. -/
structure throw_result where
  trace : List event
  outcome : throw_outcome
  stack : List handler_entry
deriving DecidableEq

/-- _throw_exception: create the condition, register the
condition-destroying finalizer (its struct's address is the fresh id
cf), run the search loop, then branch exactly as the C switch does:
ABORT runs run_finalizers_and_unwind up to the chosen node and longjmps;
HANDLED unregisters the condition finalizer (running it) and returns;
an invalid verdict prints and exits; an exhausted stack prints
"Fatal condition: " followed by the formatted condition and exits 1.
Running finalizer cf is the destruction of the condition. -/
def _throw_exception (e : env) (cf : Nat) (name message : String)
    (filename : String) (linenum : Int) (stack : List handler_entry) :
    throw_result :=
  let cond := create_condition name message filename linenum
  let reg := register_finalizer cf stack
  let p := throw_loop e name reg.2
  match p.2 with
  | loop_decision.aborted h rest =>
    let u := run_finalizers_and_unwind (reg.2.length - (rest.length + 1)) reg.2
    ⟨reg.1 ++ p.1 ++ u.1, throw_outcome.jumped h, u.2⟩
  | loop_decision.handled =>
    let u := unregister_finalizer cf reg.2
    ⟨reg.1 ++ p.1 ++ u.1, throw_outcome.returned, u.2⟩
  | loop_decision.invalid v =>
    ⟨reg.1 ++ p.1 ++ [event.diagnostic ("Invalid handler option: " ++ toString v)],
      throw_outcome.exited 1, reg.2⟩
  | loop_decision.no_handler =>
    ⟨reg.1 ++ p.1 ++ [event.diagnostic ("Fatal condition: " ++ fprint_condition cond)],
      throw_outcome.exited 1, reg.2⟩

/-- The handler ids of the HANDLER nodes of a stack whose
condition_name equals the given name, newest first. -/
def matching (e : env) (condition_name : String) : List handler_entry → List Nat
  | [] => []
  | handler_entry.handler h :: rest =>
    if e.hname h = condition_name then h :: matching e condition_name rest
    else matching e condition_name rest
  | handler_entry.finalizer _ :: rest => matching e condition_name rest

/-- Of a list of matching handlers, the ones the walk actually fires:
every handler up to and including the first whose verdict is not
HANDLER_PASS. -/
def fire_list (e : env) : List Nat → List Nat
  | [] => []
  | h :: rest =>
    match e.hres h with
    | handler_result.pass => h :: fire_list e rest
    | _ => [h]

/-- The handler ids invoked in a trace, in order. -/
def invoked : List event → List Nat
  | [] => []
  | event.invoke_handler h :: rest => h :: invoked rest
  | _ :: rest => invoked rest

/-- Number of times finalizer f's callback runs in a trace. -/
def nruns (f : Nat) : List event → Nat
  | [] => 0
  | event.run_finalizer g :: rest => (if g = f then 1 else 0) + nruns f rest
  | _ :: rest => nruns f rest

/-- Number of FINALIZER nodes for f on a stack. -/
def nfin (f : Nat) : List handler_entry → Nat
  | [] => 0
  | handler_entry.finalizer g :: rest => (if g = f then 1 else 0) + nfin f rest
  | handler_entry.handler _ :: rest => nfin f rest

/-- Number of node frees in a trace. -/
def nfrees : List event → Nat
  | [] => 0
  | event.free_node :: rest => 1 + nfrees rest
  | _ :: rest => nfrees rest

/-- Number of writes to a condition_handler's condition field in a
trace. -/
def nwrites : List event → Nat
  | [] => 0
  | event.set_cond_field _ :: rest => 1 + nwrites rest
  | _ :: rest => nwrites rest

/-- The trace left by unwinding over the given nodes: newest first, a
finalizer node runs its callback and is freed, a handler node is only
freed. -/
def unwind_events : List handler_entry → List event
  | [] => []
  | handler_entry.finalizer f :: rest =>
    event.run_finalizer f :: event.free_node :: unwind_events rest
  | handler_entry.handler _ :: rest => event.free_node :: unwind_events rest

/-- Discriminator for the abort case of the loop. -/
def is_aborted : loop_decision → Bool
  | loop_decision.aborted _ _ => true
  | _ => false

/-- A concrete environment for the closed instances below: handlers
below 10 handle "x"; handler 0 aborts, handler 1 handles, all others
pass; restart 0 is named "retry" and succeeds. -/
def cenv : env where
  hname := fun h => if h < 10 then "x" else "y"
  hres := fun h =>
    if h = 0 then handler_result.abort
    else if h = 1 then handler_result.handled
    else handler_result.pass
  rname := fun r => if r = 0 then "retry" else "other"
  rres := fun _ => restart_result.succeed

/-- The fused search loop agrees with the find-then-switch shape of the
while loop in the C source. -/
theorem throw_loop_eq_find (e : env) (cn : String) (l : List handler_entry) :
    throw_loop e cn l =
      match find_handler_entry e cn l with
      | none => ([], loop_decision.no_handler)
      | some (h, rest) =>
        match e.hres h with
        | handler_result.abort => ([event.invoke_handler h], loop_decision.aborted h rest)
        | handler_result.handled => ([event.invoke_handler h], loop_decision.handled)
        | handler_result.pass =>
          (event.invoke_handler h :: (throw_loop e cn rest).1, (throw_loop e cn rest).2)
        | handler_result.invalid v => ([event.invoke_handler h], loop_decision.invalid v) := by
  induction l with
  | nil => rfl
  | cons c rest ih =>
    cases c with
    | finalizer f => simpa [throw_loop, find_handler_entry] using ih
    | handler h =>
      by_cases hn : e.hname h = cn
      · simp [throw_loop, find_handler_entry, hn]
      · simpa [throw_loop, find_handler_entry, hn] using ih

theorem invoked_append (a b : List event) :
    invoked (a ++ b) = invoked a ++ invoked b := by
  induction a with
  | nil => rfl
  | cons ev rest ih => cases ev <;> simp [invoked, ih]

theorem nruns_append (f : Nat) (a b : List event) :
    nruns f (a ++ b) = nruns f a + nruns f b := by
  induction a with
  | nil => simp [nruns]
  | cons ev rest ih => cases ev <;> simp [nruns, ih, Nat.add_assoc]

theorem nwrites_append (a b : List event) :
    nwrites (a ++ b) = nwrites a + nwrites b := by
  induction a with
  | nil => simp [nwrites]
  | cons ev rest ih => cases ev <;> simp [nwrites, ih, Nat.add_assoc]

theorem nfin_append (f : Nat) (a b : List handler_entry) :
    nfin f (a ++ b) = nfin f a + nfin f b := by
  induction a with
  | nil => simp [nfin]
  | cons c rest ih => cases c <;> simp [nfin, ih, Nat.add_assoc]

theorem invoked_throw_loop (e : env) (cn : String) (l : List handler_entry) :
    invoked (throw_loop e cn l).1 = fire_list e (matching e cn l) := by
  induction l with
  | nil => rfl
  | cons c rest ih =>
    cases c with
    | finalizer f => simpa [throw_loop, matching] using ih
    | handler h =>
      by_cases hn : e.hname h = cn
      · cases hr : e.hres h <;>
          simp [throw_loop, matching, hn, hr, fire_list, invoked, ih]
      · simpa [throw_loop, matching, hn] using ih

theorem nruns_throw_loop (e : env) (cn : String) (f : Nat) (l : List handler_entry) :
    nruns f (throw_loop e cn l).1 = 0 := by
  induction l with
  | nil => rfl
  | cons c rest ih =>
    cases c with
    | finalizer g => simpa [throw_loop] using ih
    | handler h =>
      by_cases hn : e.hname h = cn
      · cases hr : e.hres h <;> simp [throw_loop, hn, hr, nruns, ih]
      · simpa [throw_loop, hn] using ih

theorem nwrites_throw_loop (e : env) (cn : String) (l : List handler_entry) :
    nwrites (throw_loop e cn l).1 = 0 := by
  induction l with
  | nil => rfl
  | cons c rest ih =>
    cases c with
    | finalizer g => simpa [throw_loop] using ih
    | handler h =>
      by_cases hn : e.hname h = cn
      · cases hr : e.hres h <;> simp [throw_loop, hn, hr, nwrites, ih]
      · simpa [throw_loop, hn] using ih

theorem nruns_unwind_events (f : Nat) (l : List handler_entry) :
    nruns f (unwind_events l) = nfin f l := by
  induction l with
  | nil => rfl
  | cons c rest ih => cases c <;> simp [unwind_events, nruns, nfin, ih]

theorem nwrites_unwind_events (l : List handler_entry) :
    nwrites (unwind_events l) = 0 := by
  induction l with
  | nil => rfl
  | cons c rest ih => cases c <;> simp [unwind_events, nwrites, ih]

theorem invoked_unwind_events (l : List handler_entry) :
    invoked (unwind_events l) = [] := by
  induction l with
  | nil => rfl
  | cons c rest ih => cases c <;> simp [unwind_events, invoked, ih]

/-- Unwinding with the chosen node l2.head standing behind the l1.length
front nodes removes exactly the front nodes, producing their unwind
trace. -/
theorem run_finalizers_and_unwind_append (l1 l2 : List handler_entry) :
    run_finalizers_and_unwind l1.length (l1 ++ l2) = (unwind_events l1, l2) := by
  induction l1 with
  | nil => rfl
  | cons c rest ih =>
    cases c <;> simp [run_finalizers_and_unwind, unwind_events, ih]

/-- A loop run that decides on abort splits the stack at the chosen
node: everything in front of it, then the node, then its next suffix. -/
theorem throw_loop_aborted_split (e : env) (cn : String) (l : List handler_entry)
    (t : List event) (h : Nat) (rest : List handler_entry)
    (hl : throw_loop e cn l = (t, loop_decision.aborted h rest)) :
    ∃ l1, l = l1 ++ handler_entry.handler h :: rest ∧
      e.hname h = cn ∧ e.hres h = handler_result.abort := by
  induction l generalizing t with
  | nil => simp [throw_loop] at hl
  | cons c tail ih =>
    cases c with
    | finalizer f =>
      rw [throw_loop] at hl
      rcases ih t hl with ⟨l1, hs, hn, hr⟩
      exact ⟨handler_entry.finalizer f :: l1, by simp [hs], hn, hr⟩
    | handler g =>
      by_cases hn : e.hname g = cn
      · rcases hr : e.hres g with _ | _ | _ | v
        · rw [throw_loop, if_pos hn, hr] at hl
          rcases Prod.mk.injEq .. ▸ hl with ⟨ht, hd⟩
          rcases loop_decision.aborted.injEq .. ▸ hd with ⟨rfl, rfl⟩
          exact ⟨[], rfl, hn, hr⟩
        · rw [throw_loop, if_pos hn, hr] at hl
          simp at hl
        · rw [throw_loop, if_pos hn, hr] at hl
          rcases Prod.mk.injEq .. ▸ hl with ⟨ht, hd⟩
          have hl2 : throw_loop e cn tail = ((throw_loop e cn tail).1, loop_decision.aborted h rest) := by
            rw [← hd]
          rcases ih (throw_loop e cn tail).1 hl2 with ⟨l1, hs, hn2, hr2⟩
          exact ⟨handler_entry.handler g :: l1, by simp [hs], hn2, hr2⟩
        · rw [throw_loop, if_pos hn, hr] at hl
          simp at hl
      · rw [throw_loop, if_neg hn] at hl
        rcases ih t hl with ⟨l1, hs, hn2, hr2⟩
        exact ⟨handler_entry.handler g :: l1, by simp [hs], hn2, hr2⟩

/-- _throw_exception on a run whose loop decides HANDLED: the trace is
the node allocation, the loop's invocations, then the condition
finalizer running (destroying the condition) and its node being freed;
control returns and the stack is exactly the caller's again. -/
theorem throw_spec_handled (e : env) (cf : Nat) (name message filename : String)
    (linenum : Int) (stack : List handler_entry) (t : List event)
    (hl : throw_loop e name (handler_entry.finalizer cf :: stack) =
      (t, loop_decision.handled)) :
    _throw_exception e cf name message filename linenum stack =
      ⟨event.alloc_node :: (t ++ [event.run_finalizer cf, event.free_node]),
        throw_outcome.returned, stack⟩ := by
  simp [_throw_exception, register_finalizer, hl, unregister_finalizer,
    remove_first_finalizer]

/-- _throw_exception on a run whose loop decides ABORT at the node whose
handler is h, the stack splitting as l1 in front of that node: the trace
is the allocation, the loop's invocations, then the unwind over l1;
control longjmps to h and the chosen node is left at the top of the
stack. -/
theorem throw_spec_aborted (e : env) (cf : Nat) (name message filename : String)
    (linenum : Int) (stack : List handler_entry) (t : List event) (h : Nat)
    (rest l1 : List handler_entry)
    (hl : throw_loop e name (handler_entry.finalizer cf :: stack) =
      (t, loop_decision.aborted h rest))
    (hsplit : handler_entry.finalizer cf :: stack =
      l1 ++ handler_entry.handler h :: rest) :
    _throw_exception e cf name message filename linenum stack =
      ⟨event.alloc_node :: (t ++ unwind_events l1), throw_outcome.jumped h,
        handler_entry.handler h :: rest⟩ := by
  have key : run_finalizers_and_unwind (stack.length - rest.length)
      (handler_entry.finalizer cf :: stack) =
      (unwind_events l1, handler_entry.handler h :: rest) := by
    have hlen : stack.length - rest.length = l1.length := by
      have hsl := congrArg List.length hsplit
      simp at hsl
      omega
    rw [hlen, hsplit, run_finalizers_and_unwind_append]
  simp [_throw_exception, register_finalizer, hl, key]

/-- _throw_exception on a run whose loop exhausts the stack: the fatal
diagnostic is written after the loop's invocations and the process exits
with status 1; nothing was unwound and the condition finalizer is still
on the leaked stack. -/
theorem throw_spec_no_handler (e : env) (cf : Nat) (name message filename : String)
    (linenum : Int) (stack : List handler_entry) (t : List event)
    (hl : throw_loop e name (handler_entry.finalizer cf :: stack) =
      (t, loop_decision.no_handler)) :
    _throw_exception e cf name message filename linenum stack =
      ⟨event.alloc_node :: (t ++ [event.diagnostic ("Fatal condition: " ++
          fprint_condition (create_condition name message filename linenum))]),
        throw_outcome.exited 1, handler_entry.finalizer cf :: stack⟩ := by
  simp [_throw_exception, register_finalizer, hl]

theorem remove_first_finalizer_eq_none (f : Nat) (l : List handler_entry)
    (hf : nfin f l = 0) : remove_first_finalizer f l = none := by
  induction l with
  | nil => rfl
  | cons c rest ih =>
    cases c with
    | handler h =>
      rw [nfin] at hf
      simp [remove_first_finalizer, ih hf]
    | finalizer g =>
      rw [nfin] at hf
      have hg : ¬ g = f := by
        intro hh
        rw [if_pos hh] at hf
        omega
      rw [if_neg hg] at hf
      have h0 : nfin f rest = 0 := by omega
      simp [remove_first_finalizer, hg, ih h0]

theorem throw_loop_all_pass (e : env) (cn : String) (l : List handler_entry)
    (hp : ∀ h, handler_entry.handler h ∈ l → e.hname h = cn →
      e.hres h = handler_result.pass) :
    (throw_loop e cn l).2 = loop_decision.no_handler := by
  induction l with
  | nil => rfl
  | cons c rest ih =>
    cases c with
    | finalizer f =>
      rw [throw_loop]
      exact ih fun h hm hn => hp h (List.mem_cons_of_mem _ hm) hn
    | handler g =>
      by_cases hn : e.hname g = cn
      · have hg := hp g (List.mem_cons_self _ _) hn
        rw [throw_loop, if_pos hn, hg]
        exact ih fun h hm hn2 => hp h (List.mem_cons_of_mem _ hm) hn2
      · rw [throw_loop, if_neg hn]
        exact ih fun h hm hn2 => hp h (List.mem_cons_of_mem _ hm) hn2

theorem fire_list_all_pass (e : env) (l : List Nat)
    (hp : ∀ x ∈ l, e.hres x = handler_result.pass) : fire_list e l = l := by
  induction l with
  | nil => rfl
  | cons x rest ih =>
    have hx := hp x (List.mem_cons_self _ _)
    rw [fire_list, hx]
    rw [ih fun y hy => hp y (List.mem_cons_of_mem _ hy)]

theorem mem_matching (e : env) (cn : String) (l : List handler_entry) (x : Nat)
    (hx : x ∈ matching e cn l) :
    handler_entry.handler x ∈ l ∧ e.hname x = cn := by
  induction l with
  | nil => simp [matching] at hx
  | cons c rest ih =>
    cases c with
    | finalizer f =>
      rw [matching] at hx
      rcases ih hx with ⟨h1, h2⟩
      exact ⟨List.mem_cons_of_mem _ h1, h2⟩
    | handler g =>
      by_cases hn : e.hname g = cn
      · rw [matching, if_pos hn] at hx
        rcases List.mem_cons.mp hx with rfl | hx2
        · exact ⟨List.mem_cons_self _ _, hn⟩
        · rcases ih hx2 with ⟨h1, h2⟩
          exact ⟨List.mem_cons_of_mem _ h1, h2⟩
      · rw [matching, if_neg hn] at hx
        rcases ih hx with ⟨h1, h2⟩
        exact ⟨List.mem_cons_of_mem _ h1, h2⟩

theorem matching_mem (e : env) (cn : String) (l : List handler_entry) (x : Nat)
    (hmem : handler_entry.handler x ∈ l) (hn : e.hname x = cn) :
    x ∈ matching e cn l := by
  induction l with
  | nil => simp at hmem
  | cons c rest ih =>
    rcases List.mem_cons.mp hmem with heq | hmem2
    · rw [← heq, matching, if_pos hn]
      exact List.mem_cons_self _ _
    · cases c with
      | finalizer f =>
        rw [matching]
        exact ih hmem2
      | handler g =>
        by_cases hg : e.hname g = cn
        · rw [matching, if_pos hg]
          exact List.mem_cons_of_mem _ (ih hmem2)
        · rw [matching, if_neg hg]
          exact ih hmem2

theorem find_restart_entry_eq_none (e : env) (rn : String) (rs : List Nat)
    (hnone : ∀ r ∈ rs, e.rname r ≠ rn) : find_restart_entry e rn rs = none := by
  induction rs with
  | nil => rfl
  | cons r rest ih =>
    have hr := hnone r (List.mem_cons_self _ _)
    rw [find_restart_entry, if_neg hr]
    exact ih fun x hx => hnone x (List.mem_cons_of_mem _ hx)

theorem find_restart_entry_first (e : env) (rn : String) (p : List Nat) (r : Nat)
    (q : List Nat) (hp : ∀ x ∈ p, e.rname x ≠ rn) (hr : e.rname r = rn) :
    find_restart_entry e rn (p ++ r :: q) = some r := by
  induction p with
  | nil => simp [find_restart_entry, hr]
  | cons x rest ih =>
    have hx := hp x (List.mem_cons_self _ _)
    rw [List.cons_append, find_restart_entry, if_neg hx]
    exact ih fun y hy => hp y (List.mem_cons_of_mem _ hy)

/-- _throw_exception on a run whose loop hits the default branch of the
switch: the invalid-verdict diagnostic is written and the process exits
with status 1. -/
theorem throw_spec_invalid (e : env) (cf : Nat) (name message filename : String)
    (linenum : Int) (stack : List handler_entry) (t : List event) (v : Nat)
    (hl : throw_loop e name (handler_entry.finalizer cf :: stack) =
      (t, loop_decision.invalid v)) :
    _throw_exception e cf name message filename linenum stack =
      ⟨event.alloc_node :: (t ++
          [event.diagnostic ("Invalid handler option: " ++ toString v)]),
        throw_outcome.exited 1, handler_entry.finalizer cf :: stack⟩ := by
  simp [_throw_exception, register_finalizer, hl]

/-- C1: signaling walks the handler stack newest-first, skipping
finalizer nodes and handlers whose condition_name does not equal the
signaled name; the newest matching handler is invoked first and each
Pass verdict continues the walk to the next older matching handler (the
invoked sequence is fire_list over the newest-first matching list); and
when the walk ends in a Handled verdict the stack signal leaves behind
is exactly the caller's stack, so every handler that returned Pass is
still registered in its place. -/
theorem claim_C1_lifo_pass_selection (e : env) (cf : Nat)
    (name message filename : String) (linenum : Int)
    (stack : List handler_entry) :
    invoked ((_throw_exception e cf name message filename linenum stack).trace) =
      fire_list e (matching e name stack) ∧
    ((throw_loop e name (handler_entry.finalizer cf :: stack)).2 =
        loop_decision.handled →
      (_throw_exception e cf name message filename linenum stack).stack = stack) := by
  rcases hL : throw_loop e name (handler_entry.finalizer cf :: stack) with ⟨t, d⟩
  have hti : invoked t = fire_list e (matching e name stack) := by
    have hit := invoked_throw_loop e name (handler_entry.finalizer cf :: stack)
    rw [hL] at hit
    exact hit
  constructor
  · cases d with
    | aborted h rest =>
      rcases throw_loop_aborted_split e name _ t h rest hL with ⟨l1, hs, _, _⟩
      rw [throw_spec_aborted e cf name message filename linenum stack t h rest l1 hL hs]
      simp [invoked, invoked_append, invoked_unwind_events, hti]
    | handled =>
      rw [throw_spec_handled e cf name message filename linenum stack t hL]
      simp [invoked, invoked_append, hti]
    | invalid v =>
      rw [throw_spec_invalid e cf name message filename linenum stack t v hL]
      simp [invoked, invoked_append, hti]
    | no_handler =>
      rw [throw_spec_no_handler e cf name message filename linenum stack t hL]
      simp [invoked, invoked_append, hti]
  · intro hd
    simp at hd
    subst hd
    rw [throw_spec_handled e cf name message filename linenum stack t hL]

/-- C2: when a handler returns Abort for the chosen node (handler h, the
l1 nodes standing strictly above it), the dispatcher walks newest-first
over l1, running the callback of every finalizer node and freeing every
node (unwind_events l1), leaves the chosen node itself on the stack - so
handler h is still registered after the jump and a subsequent
unregister_handler on it succeeds, splicing and freeing its node with no
diagnostic - and then fires the jump: the outcome is jumped h, not a
return to the signaler. -/
theorem claim_C2_abort_unwind_preserves_handler (e : env) (cf : Nat)
    (name message filename : String) (linenum : Int)
    (stack : List handler_entry) (t : List event) (h : Nat)
    (rest l1 : List handler_entry)
    (hloop : throw_loop e name (handler_entry.finalizer cf :: stack) =
      (t, loop_decision.aborted h rest))
    (hsplit : handler_entry.finalizer cf :: stack =
      l1 ++ handler_entry.handler h :: rest) :
    _throw_exception e cf name message filename linenum stack =
      ⟨event.alloc_node :: (t ++ unwind_events l1), throw_outcome.jumped h,
        handler_entry.handler h :: rest⟩ ∧
    unregister_handler h (handler_entry.handler h :: rest) =
      ([event.free_node], rest) := by
  refine ⟨throw_spec_aborted e cf name message filename linenum stack t h rest l1
    hloop hsplit, ?_⟩
  simp [unregister_handler, remove_first_handler]

theorem claim_C2_witness :
    _throw_exception cenv 9 "x" "m" "f" 1
        [handler_entry.finalizer 5, handler_entry.handler 0] =
      ⟨event.alloc_node :: ([event.invoke_handler 0] ++
          unwind_events [handler_entry.finalizer 9, handler_entry.finalizer 5]),
        throw_outcome.jumped 0, [handler_entry.handler 0]⟩ ∧
    unregister_handler 0 [handler_entry.handler 0] = ([event.free_node], []) :=
  claim_C2_abort_unwind_preserves_handler cenv 9 "x" "m" "f" 1
    [handler_entry.finalizer 5, handler_entry.handler 0] [event.invoke_handler 0] 0 []
    [handler_entry.finalizer 9, handler_entry.finalizer 5] (by decide) (by decide)

theorem claim_C1_witness :
    invoked ((_throw_exception cenv 9 "x" "m" "f" 1
        [handler_entry.handler 2, handler_entry.handler 1,
          handler_entry.handler 0]).trace) =
      fire_list cenv (matching cenv "x"
        [handler_entry.handler 2, handler_entry.handler 1,
          handler_entry.handler 0]) ∧
    (_throw_exception cenv 9 "x" "m" "f" 1
        [handler_entry.handler 2, handler_entry.handler 1,
          handler_entry.handler 0]).stack =
      [handler_entry.handler 2, handler_entry.handler 1,
        handler_entry.handler 0] :=
  ⟨(claim_C1_lifo_pass_selection cenv 9 "x" "m" "f" 1
      [handler_entry.handler 2, handler_entry.handler 1,
        handler_entry.handler 0]).1,
    (claim_C1_lifo_pass_selection cenv 9 "x" "m" "f" 1
      [handler_entry.handler 2, handler_entry.handler 1,
        handler_entry.handler 0]).2 (by decide)⟩

/-- C6: when the walk exhausts the stack without a match, signal writes
"Fatal condition: " followed by the formatted condition, the format
being filename, ":", line, ": ", name, ":", message, and terminates the
process with the nonzero status 1. -/
theorem claim_C6_fatal_no_handler (e : env) (cf : Nat)
    (name message filename : String) (linenum : Int)
    (stack : List handler_entry) (t : List event)
    (hloop : throw_loop e name (handler_entry.finalizer cf :: stack) =
      (t, loop_decision.no_handler)) :
    (_throw_exception e cf name message filename linenum stack).outcome =
      throw_outcome.exited 1 ∧
    (_throw_exception e cf name message filename linenum stack).trace =
      event.alloc_node :: (t ++ [event.diagnostic ("Fatal condition: " ++
        (filename ++ ":" ++ toString linenum ++ ": " ++ name ++ ":" ++ message))]) := by
  rw [throw_spec_no_handler e cf name message filename linenum stack t hloop]
  exact ⟨rfl, rfl⟩

theorem claim_C6_witness :
    (_throw_exception cenv 9 "boom" "x" "f" 1 []).outcome =
      throw_outcome.exited 1 ∧
    (_throw_exception cenv 9 "boom" "x" "f" 1 []).trace =
      event.alloc_node :: ([] ++ [event.diagnostic ("Fatal condition: " ++
        ("f" ++ ":" ++ toString (1 : Int) ++ ": " ++ "boom" ++ ":" ++ "x"))]) :=
  claim_C6_fatal_no_handler cenv 9 "boom" "x" "f" 1 [] [] (by decide)

/-- C3 counterexample: with no handler on the stack, _throw_exception
takes the fatal no-handler exit, and the condition-destroying finalizer
(id 0 here) never runs: on that control path the condition is destroyed
zero times, not once - exit(1) fires with the condition still
allocated. -/
theorem claim_C3_counterexample :
    (_throw_exception cenv 0 "boom" "x" "f" 1 []).outcome =
      throw_outcome.exited 1 ∧
    nruns 0 ((_throw_exception cenv 0 "boom" "x" "f" 1 []).trace) = 0 := by
  decide

/-- C3 as amended: the condition allocated by signal is destroyed
exactly once on a Handled return and exactly once on an Abort unwind
(before the jump fires, as part of the finalizer sweep); on the fatal
no-handler exit it is not destroyed - the process terminates with the
condition still allocated.  Destruction is the run of the
condition-destroying finalizer cf, whose id is fresh for the caller's
stack. -/
theorem claim_C3_condition_destroyed (e : env) (cf : Nat)
    (name message filename : String) (linenum : Int) (stack : List handler_entry)
    (hfresh : nfin cf stack = 0) :
    ((throw_loop e name (handler_entry.finalizer cf :: stack)).2 =
        loop_decision.handled →
      nruns cf ((_throw_exception e cf name message filename linenum stack).trace) = 1) ∧
    (is_aborted (throw_loop e name (handler_entry.finalizer cf :: stack)).2 = true →
      nruns cf ((_throw_exception e cf name message filename linenum stack).trace) = 1) ∧
    ((throw_loop e name (handler_entry.finalizer cf :: stack)).2 =
        loop_decision.no_handler →
      nruns cf ((_throw_exception e cf name message filename linenum stack).trace) = 0) := by
  rcases hL : throw_loop e name (handler_entry.finalizer cf :: stack) with ⟨t, d⟩
  have ht : nruns cf t = 0 := by
    have hnr := nruns_throw_loop e name cf (handler_entry.finalizer cf :: stack)
    rw [hL] at hnr
    exact hnr
  cases d with
  | aborted h rest =>
    refine ⟨fun hd => by simp at hd, fun _ => ?_, fun hd => by simp at hd⟩
    rcases throw_loop_aborted_split e name _ t h rest hL with ⟨l1, hs, _, _⟩
    rw [throw_spec_aborted e cf name message filename linenum stack t h rest l1 hL hs]
    cases l1 with
    | nil => simp at hs
    | cons c l1a =>
      rw [List.cons_append] at hs
      injection hs with hs1 hs2
      rw [hs2, nfin_append, nfin] at hfresh
      rw [← hs1]
      simp [nruns, nruns_append, nruns_unwind_events, ht, unwind_events, nfin]
      omega
  | handled =>
    refine ⟨fun _ => ?_, fun hab => by simp [is_aborted] at hab, fun hd => by simp at hd⟩
    rw [throw_spec_handled e cf name message filename linenum stack t hL]
    simp [nruns, nruns_append, ht]
  | invalid v =>
    exact ⟨fun hd => by simp at hd, fun hab => by simp [is_aborted] at hab,
      fun hd => by simp at hd⟩
  | no_handler =>
    refine ⟨fun hd => by simp at hd, fun hab => by simp [is_aborted] at hab, fun _ => ?_⟩
    rw [throw_spec_no_handler e cf name message filename linenum stack t hL]
    simp [nruns, nruns_append, ht]

theorem claim_C3_witness :
    nruns 9 ((_throw_exception cenv 9 "x" "m" "f" 1
      [handler_entry.handler 1]).trace) = 1 :=
  (claim_C3_condition_destroyed cenv 9 "x" "m" "f" 1
    [handler_entry.handler 1] (by decide)).1 (by decide)

/-- C4: a registered finalizer's callback runs exactly once whichever
path exits its scope.  Normal path: unregister_finalizer runs it once at
the unregister site.  Abort path, for a finalizer f on the stack exactly
once: the run during the throw plus the run of the caller's
unregister - performed afterwards exactly when f is still registered -
total exactly one, whether the aborting handler sat above f (f survives
the unwind and the caller unregisters it) or below f (the unwind runs
and removes it and the caller never reaches the unregister). -/
theorem claim_C4_finalizer_exactly_once (e : env) (cf f : Nat)
    (name message filename : String) (linenum : Int) (stack : List handler_entry)
    (t : List event) (h : Nat) (rest : List handler_entry)
    (hf : f ≠ cf) (hone : nfin f stack = 1)
    (hloop : throw_loop e name (handler_entry.finalizer cf :: stack) =
      (t, loop_decision.aborted h rest)) :
    nruns f ((unregister_finalizer f stack).1) = 1 ∧
    nruns f ((_throw_exception e cf name message filename linenum stack).trace) +
      nruns f (if 0 < nfin f
          ((_throw_exception e cf name message filename linenum stack).stack)
        then (unregister_finalizer f
          ((_throw_exception e cf name message filename linenum stack).stack)).1
        else []) = 1 := by
  constructor
  · cases hrem : remove_first_finalizer f stack <;>
      simp [unregister_finalizer, hrem, nruns]
  · have ht : nruns f t = 0 := by
      have hnr := nruns_throw_loop e name f (handler_entry.finalizer cf :: stack)
      rw [hloop] at hnr
      exact hnr
    rcases throw_loop_aborted_split e name _ t h rest hloop with ⟨l1, hs, _, _⟩
    rw [throw_spec_aborted e cf name message filename linenum stack t h rest l1 hloop hs]
    cases l1 with
    | nil => simp at hs
    | cons c l1a =>
      rw [List.cons_append] at hs
      injection hs with hs1 hs2
      have hcf : ¬ cf = f := fun hh => hf hh.symm
      rw [hs2, nfin_append, nfin] at hone
      rw [← hs1]
      by_cases hr0 : nfin f rest = 0
      · have hstack : ¬ 0 < nfin f rest := by omega
        simp [nruns, nruns_append, nruns_unwind_events, ht, unwind_events, nfin,
          hcf, hstack]
        omega
      · have hstack : 0 < nfin f rest := by omega
        have h1 : nruns f ((unregister_finalizer f
            (handler_entry.handler h :: rest)).1) = 1 := by
          cases hrem : remove_first_finalizer f (handler_entry.handler h :: rest) <;>
            simp [unregister_finalizer, hrem, nruns]
        simp [nruns, nruns_append, nruns_unwind_events, ht, unwind_events, nfin,
          hcf, hstack, h1]
        omega

theorem claim_C4_witness :
    nruns 5 ((unregister_finalizer 5
      [handler_entry.finalizer 5, handler_entry.handler 0]).1) = 1 ∧
    nruns 5 ((_throw_exception cenv 9 "x" "m" "f" 1
        [handler_entry.finalizer 5, handler_entry.handler 0]).trace) +
      nruns 5 (if 0 < nfin 5 ((_throw_exception cenv 9 "x" "m" "f" 1
          [handler_entry.finalizer 5, handler_entry.handler 0]).stack)
        then (unregister_finalizer 5 ((_throw_exception cenv 9 "x" "m" "f" 1
          [handler_entry.finalizer 5, handler_entry.handler 0]).stack)).1
        else []) = 1 :=
  claim_C4_finalizer_exactly_once cenv 9 5 "x" "m" "f" 1
    [handler_entry.finalizer 5, handler_entry.handler 0] [event.invoke_handler 0] 0 []
    (by decide) (by decide) (by decide)

/-- C5 counterexample: unregister_finalizer called with a reference not
on the (empty) stack leaves the stack unchanged and writes the
diagnostic, but it DOES invoke the finalizer's callback - the C function
runs finalizer->func before searching the stack - contradicting the
claim that the callback is not invoked. -/
theorem claim_C5_counterexample :
    event.run_finalizer 5 ∈ (unregister_finalizer 5 []).1 ∧
    (unregister_finalizer 5 []).2 = [] ∧
    event.diagnostic "Trying to unregister non-existent finalizer" ∈
      (unregister_finalizer 5 []).1 := by
  decide

/-- C5 as amended: calling remove_finalizer with a reference not on the
stack writes the diagnostic and performs no mutation of the stack, but
the finalizer's callback IS invoked: unregister_finalizer runs the
callback unconditionally before searching. -/
theorem claim_C5_unknown_unregister (f : Nat) (stack : List handler_entry)
    (habsent : nfin f stack = 0) :
    unregister_finalizer f stack =
      ([event.run_finalizer f,
        event.diagnostic "Trying to unregister non-existent finalizer"], stack) := by
  rw [unregister_finalizer, remove_first_finalizer_eq_none f stack habsent]

theorem claim_C5_witness :
    unregister_finalizer 5 [handler_entry.handler 2] =
      ([event.run_finalizer 5,
        event.diagnostic "Trying to unregister non-existent finalizer"],
        [handler_entry.handler 2]) :=
  claim_C5_unknown_unregister 5 [handler_entry.handler 2] (by decide)

/-- C7: invoke_restart scans the restart stack newest-first; when the
stack splits as p ++ r :: q with no earlier entry matching and r's
restart_name equal to the requested name, r's callback is called with
the condition and its user_data and its result is returned verbatim;
when no entry matches (in particular on an empty stack, as when called
outside any signal) the result is RESTART_NOT_FOUND. -/
theorem claim_C7_invoke_restart (e : env) (cond : condition) (restart_name : String)
    (restarts : List Nat) :
    ((∀ r ∈ restarts, e.rname r ≠ restart_name) →
      invoke_restart e cond restart_name restarts = ([], restart_result.not_found)) ∧
    (∀ p r q, restarts = p ++ r :: q → (∀ x ∈ p, e.rname x ≠ restart_name) →
      e.rname r = restart_name →
      invoke_restart e cond restart_name restarts =
        ([event.invoke_restart_ev r], e.rres r)) := by
  constructor
  · intro hnone
    rw [invoke_restart, find_restart_entry_eq_none e restart_name restarts hnone]
  · intro p r q hsplit hp hr
    rw [invoke_restart, hsplit, find_restart_entry_first e restart_name p r q hp hr]

theorem claim_C7_witness :
    invoke_restart cenv (create_condition "a" "b" "c" 1) "retry" [] =
      ([], restart_result.not_found) ∧
    invoke_restart cenv (create_condition "a" "b" "c" 1) "retry" [1, 0] =
      ([event.invoke_restart_ev 0], restart_result.succeed) :=
  ⟨(claim_C7_invoke_restart cenv (create_condition "a" "b" "c" 1) "retry" []).1
      (by decide),
    (claim_C7_invoke_restart cenv (create_condition "a" "b" "c" 1) "retry" [1, 0]).2
      [1] 0 [] rfl (by decide) (by decide)⟩

/-- C8 (code bug): register_restart allocates the restart node, but
unregister_restart only splices it out of the list: the found path of
the C function performs LL_DELETE without free(entry), so the trace of a
register/unregister pair holds the allocation and zero frees, and the
node leaks. -/
theorem claim_C8_restart_node_not_freed :
    register_restart 7 [] = ([event.alloc_node], [7]) ∧
    unregister_restart cenv 7 [7] = ([], []) ∧
    nfrees ((register_restart 7 []).1 ++ (unregister_restart cenv 7 [7]).1) = 0 := by
  decide

/-- C9: on an Abort unwind the dispatcher never writes the aborting
condition into any condition_handler's condition field before firing the
jump: the throw trace holds zero set_cond_field events (exceptions.c
contains no assignment to handler->condition, despite the comment on
that field in exceptions.h). -/
theorem claim_C9_no_condition_field_write (e : env) (cf : Nat)
    (name message filename : String) (linenum : Int) (stack : List handler_entry)
    (t : List event) (h : Nat) (rest : List handler_entry)
    (hloop : throw_loop e name (handler_entry.finalizer cf :: stack) =
      (t, loop_decision.aborted h rest)) :
    nwrites ((_throw_exception e cf name message filename linenum stack).trace) = 0 := by
  have ht : nwrites t = 0 := by
    have hnw := nwrites_throw_loop e name (handler_entry.finalizer cf :: stack)
    rw [hloop] at hnw
    exact hnw
  rcases throw_loop_aborted_split e name _ t h rest hloop with ⟨l1, hs, _, _⟩
  rw [throw_spec_aborted e cf name message filename linenum stack t h rest l1 hloop hs]
  simp [nwrites, nwrites_append, nwrites_unwind_events, ht]

theorem claim_C9_witness :
    nwrites ((_throw_exception cenv 9 "x" "m" "f" 1
      [handler_entry.handler 0]).trace) = 0 :=
  claim_C9_no_condition_field_write cenv 9 "x" "m" "f" 1
    [handler_entry.handler 0] [event.invoke_handler 0] 0 [] (by decide)

/-- C10: when at least one registered handler matches the signaled name
but every matching handler returns Pass, signal walks through all of
them (the invoked sequence is the whole nonempty matching list) and then
takes the same fatal path as when no handler matches: it writes the
fatal-condition diagnostic and exits with the nonzero status 1 instead
of returning to the signaler. -/
theorem claim_C10_all_pass_is_fatal (e : env) (cf : Nat)
    (name message filename : String) (linenum : Int) (stack : List handler_entry)
    (hpass : ∀ h, handler_entry.handler h ∈ stack → e.hname h = name →
      e.hres h = handler_result.pass)
    (hsome : ∃ h, handler_entry.handler h ∈ stack ∧ e.hname h = name) :
    (_throw_exception e cf name message filename linenum stack).outcome =
      throw_outcome.exited 1 ∧
    (_throw_exception e cf name message filename linenum stack).trace =
      event.alloc_node ::
        ((throw_loop e name (handler_entry.finalizer cf :: stack)).1 ++
          [event.diagnostic ("Fatal condition: " ++
            fprint_condition (create_condition name message filename linenum))]) ∧
    invoked ((_throw_exception e cf name message filename linenum stack).trace) =
      matching e name stack ∧
    matching e name stack ≠ [] := by
  have hp1 : ∀ h, handler_entry.handler h ∈ handler_entry.finalizer cf :: stack →
      e.hname h = name → e.hres h = handler_result.pass := by
    intro h hm hn
    rcases List.mem_cons.mp hm with heq | hm2
    · exact absurd heq (by simp)
    · exact hpass h hm2 hn
  have hapass : ∀ x ∈ matching e name stack, e.hres x = handler_result.pass := by
    intro x hx
    rcases mem_matching e name stack x hx with ⟨hmem, hn⟩
    exact hpass x hmem hn
  have hd := throw_loop_all_pass e name _ hp1
  rcases hL : throw_loop e name (handler_entry.finalizer cf :: stack) with ⟨t, d⟩
  rw [hL] at hd
  simp at hd
  subst hd
  have hspec := throw_spec_no_handler e cf name message filename linenum stack t hL
  have hti : invoked t = matching e name stack := by
    have hit := invoked_throw_loop e name (handler_entry.finalizer cf :: stack)
    rw [hL] at hit
    rw [hit]
    exact fire_list_all_pass e (matching e name stack) hapass
  rcases hsome with ⟨h0, hm0, hn0⟩
  have hne : matching e name stack ≠ [] :=
    List.ne_nil_of_mem (matching_mem e name stack h0 hm0 hn0)
  rw [hspec]
  refine ⟨rfl, rfl, ?_, hne⟩
  simp [invoked, invoked_append, hti]

theorem claim_C10_witness :
    (_throw_exception cenv 9 "x" "m" "f" 1 [handler_entry.handler 2]).outcome =
      throw_outcome.exited 1 ∧
    (_throw_exception cenv 9 "x" "m" "f" 1 [handler_entry.handler 2]).trace =
      event.alloc_node ::
        ((throw_loop cenv "x"
            [handler_entry.finalizer 9, handler_entry.handler 2]).1 ++
          [event.diagnostic ("Fatal condition: " ++
            fprint_condition (create_condition "x" "m" "f" 1))]) ∧
    invoked ((_throw_exception cenv 9 "x" "m" "f" 1
        [handler_entry.handler 2]).trace) =
      matching cenv "x" [handler_entry.handler 2] ∧
    matching cenv "x" [handler_entry.handler 2] ≠ [] :=
  claim_C10_all_pass_is_fatal cenv 9 "x" "m" "f" 1 [handler_entry.handler 2]
    (by
      intro h hm hn
      have h2 : h = 2 := by simpa using hm
      subst h2
      decide)
    ⟨2, by decide, by decide⟩

end RCException
